import Mathlib

/-!
Verification of the echo scoring / enhancement task of `ok-wuthering-waves`.

Shallow embedding of `src/echo/profile.py`, `src/echo/calculate.py`,
`src/echo/stats.py`, `src/echo/vision.py`, `src/task/AutoEnhanceEchoTask.py`
and `src/task/BaseWWTask.py` (the parts reachable from the claims).

Python floats are modelled by exact rationals (ℚ); Python ints by ℤ where
signedness matters.  Python dicts keyed by scores are modelled as association
lists in which `addMass` merges equal keys exactly as `defaultdict(float)`
accumulation does.  The static configuration files (`entry_stats.yml`,
`entry_coef.yml`, `echo.json`) are assets outside `src/`, so the catalogs are
parameters of every definition; concrete catalog instances used below are
modelled from the spec (§6 fixes their schema and the 13 stat keys).
-/

set_option maxHeartbeats 1000000

/-- The 13 canonical sub-stat identifiers, in the declaration order of the
`EntryCoef` / `EchoProfile` dataclasses in `src/echo/profile.py`. -/
inductive StatKey
  | atk_rate
  | atk_num
  | def_rate
  | def_num
  | hp_rate
  | hp_num
  | cri_rate
  | cri_dmg
  | normal_dmg
  | charged_atk
  | resonance_skill
  | resonance_burst
  | resonance_eff
  deriving DecidableEq, Repr

/-- All 13 stat keys, the order `stats_manager.get_all_keys()` and
`coef.__dict__` iterate through them (spec §6: the stat catalog holds exactly
these keys). -/
def allKeys : List StatKey :=
  [.atk_rate, .atk_num, .def_rate, .def_num, .hp_rate, .hp_num,
   .cri_rate, .cri_dmg, .normal_dmg, .charged_atk,
   .resonance_skill, .resonance_burst, .resonance_eff]

/-- Embeds the `EchoProfile` dataclass of `src/echo/profile.py`:
a level, a name and the 13 stat fields. -/
structure EchoProfile where
  level : ℤ := 0
  name : String := ""
  atk_rate : ℚ := 0
  atk_num : ℚ := 0
  def_rate : ℚ := 0
  def_num : ℚ := 0
  hp_rate : ℚ := 0
  hp_num : ℚ := 0
  cri_rate : ℚ := 0
  cri_dmg : ℚ := 0
  normal_dmg : ℚ := 0
  charged_atk : ℚ := 0
  resonance_skill : ℚ := 0
  resonance_burst : ℚ := 0
  resonance_eff : ℚ := 0
  deriving DecidableEq, Repr

/-- The `getattr(profile, key)` access on a stat field. -/
def EchoProfile.get (p : EchoProfile) : StatKey → ℚ
  | .atk_rate => p.atk_rate
  | .atk_num => p.atk_num
  | .def_rate => p.def_rate
  | .def_num => p.def_num
  | .hp_rate => p.hp_rate
  | .hp_num => p.hp_num
  | .cri_rate => p.cri_rate
  | .cri_dmg => p.cri_dmg
  | .normal_dmg => p.normal_dmg
  | .charged_atk => p.charged_atk
  | .resonance_skill => p.resonance_skill
  | .resonance_burst => p.resonance_burst
  | .resonance_eff => p.resonance_eff

/-- The `setattr(profile, key, v)` update on a stat field. -/
def EchoProfile.set (p : EchoProfile) : StatKey → ℚ → EchoProfile
  | .atk_rate, v => { p with atk_rate := v }
  | .atk_num, v => { p with atk_num := v }
  | .def_rate, v => { p with def_rate := v }
  | .def_num, v => { p with def_num := v }
  | .hp_rate, v => { p with hp_rate := v }
  | .hp_num, v => { p with hp_num := v }
  | .cri_rate, v => { p with cri_rate := v }
  | .cri_dmg, v => { p with cri_dmg := v }
  | .normal_dmg, v => { p with normal_dmg := v }
  | .charged_atk, v => { p with charged_atk := v }
  | .resonance_skill, v => { p with resonance_skill := v }
  | .resonance_burst, v => { p with resonance_burst := v }
  | .resonance_eff, v => { p with resonance_eff := v }

/-- Embeds the `EntryCoef` dataclass of `src/echo/profile.py`: the 13
per-stat weights (Python stores some as int, all arithmetic is numeric). -/
structure EntryCoef where
  atk_rate : ℚ := 0
  atk_num : ℚ := 0
  def_rate : ℚ := 0
  def_num : ℚ := 0
  hp_rate : ℚ := 0
  hp_num : ℚ := 0
  cri_rate : ℚ := 0
  cri_dmg : ℚ := 0
  normal_dmg : ℚ := 0
  charged_atk : ℚ := 0
  resonance_skill : ℚ := 0
  resonance_burst : ℚ := 0
  resonance_eff : ℚ := 0
  deriving DecidableEq, Repr

/-- The `getattr(coef, key, 0)` access on a coefficient weight. -/
def EntryCoef.get (c : EntryCoef) : StatKey → ℚ
  | .atk_rate => c.atk_rate
  | .atk_num => c.atk_num
  | .def_rate => c.def_rate
  | .def_num => c.def_num
  | .hp_rate => c.hp_rate
  | .hp_num => c.hp_num
  | .cri_rate => c.cri_rate
  | .cri_dmg => c.cri_dmg
  | .normal_dmg => c.normal_dmg
  | .charged_atk => c.charged_atk
  | .resonance_skill => c.resonance_skill
  | .resonance_burst => c.resonance_burst
  | .resonance_eff => c.resonance_eff

/-- The `setattr(coef, key, v)` update on a coefficient weight. -/
def EntryCoef.set (c : EntryCoef) : StatKey → ℚ → EntryCoef
  | .atk_rate, v => { c with atk_rate := v }
  | .atk_num, v => { c with atk_num := v }
  | .def_rate, v => { c with def_rate := v }
  | .def_num, v => { c with def_num := v }
  | .hp_rate, v => { c with hp_rate := v }
  | .hp_num, v => { c with hp_num := v }
  | .cri_rate, v => { c with cri_rate := v }
  | .cri_dmg, v => { c with cri_dmg := v }
  | .normal_dmg, v => { c with normal_dmg := v }
  | .charged_atk, v => { c with charged_atk := v }
  | .resonance_skill, v => { c with resonance_skill := v }
  | .resonance_burst, v => { c with resonance_burst := v }
  | .resonance_eff, v => { c with resonance_eff := v }

/-- One stat's catalog record (`entry_stats.yml` schema, spec §6):
display name, flat-versus-percentage kind, and the discrete distribution as
ordered (value, probability) pairs. -/
structure StatDef where
  dispName : String
  isPercentage : Bool
  distribution : List (ℚ × ℚ)
  deriving DecidableEq, Repr

/-- The stat catalog: `stats_manager` of `src/echo/stats.py` restricted to the
13 keys the spec fixes for `entry_stats.yml`. -/
def StatCatalog : Type := StatKey → StatDef

/-- Python's `needle in hay` substring test on character lists:
prefix test at each suffix of the haystack. -/
def charsPrefix : List Char → List Char → Bool
  | [], _ => true
  | _ :: _, [] => false
  | c :: cs, d :: ds => c == d && charsPrefix cs ds

/-- Python's `needle in hay` membership for strings, char-list level. -/
def charsContains : List Char → List Char → Bool
  | hay, needle =>
    charsPrefix needle hay ||
      match hay with
      | [] => false
      | _ :: rest => charsContains rest needle

/-- The damage-source tag of a coefficient catalog entry
(spec §3: one of hp, atk, def). -/
inductive DmgSource
  | hp
  | atk
  | defSrc
  deriving DecidableEq, Repr

/-- One entry of `entry_coef.yml` (spec §6): the damage source and the sparse
stat-key → weight mapping, as ordered pairs. -/
structure CoefEntry where
  dmg_source : DmgSource
  coef : List (StatKey × ℚ)
  deriving DecidableEq, Repr

/-- The coefficient catalog `coef_data`, an association list keyed by
character name (dict semantics: `lookupCoef` finds the first binding). -/
def CoefData : Type := List (String × CoefEntry)

/-- Python dict lookup `coef_data[name]` / membership test. -/
def lookupCoef (cd : CoefData) (name : String) : Option CoefEntry :=
  (cd.find? (fun e => e.1 == name)).map Prod.snd

/-- The loop `for key, value in coef_data[...]["coef"].items(): setattr(self, key, value)`. -/
def applyCoefList (c : EntryCoef) (l : List (StatKey × ℚ)) : EntryCoef :=
  l.foldl (fun acc kv => acc.set kv.1 kv.2) c

/-- Embeds `EntryCoef.set_char` of `src/echo/profile.py`: raise `ValueError`
for a name missing from the catalog, otherwise set the damage-source derived
weights and then apply the character's sparse coefficient mapping. -/
def EntryCoef.set_char (cd : CoefData) (c : EntryCoef) (char_name : String) :
    Except String EntryCoef :=
  match lookupCoef cd char_name with
  | none => .error "ValueError: Character not found in coef data"
  | some entry =>
    let c' :=
      match entry.dmg_source with
      | .hp => { c with hp_num := 169/25000, hp_rate := 1 }
      | .atk => { c with atk_num := 1/10, atk_rate := 1 }
      | .defSrc => { c with def_num := 1/10, def_rate := 1 }
    .ok (applyCoefList c' entry.coef)

/-- Embeds `EntryCoef.__init__(char_name)` of `src/echo/profile.py` for a
non-None `char_name`: zero every field, apply `coef_data["Default"]["coef"]`
(a missing "Default" key would raise `KeyError`), then `set_char`. -/
def mkEntryCoef (cd : CoefData) (char_name : String) : Except String EntryCoef :=
  match lookupCoef cd "Default" with
  | none => .error "KeyError: Default"
  | some defEntry => EntryCoef.set_char cd (applyCoefList {} defEntry.coef) char_name

/-- The stat key whose rate-weight the damage source fixes to 1. -/
def rateKeyOf : DmgSource → StatKey
  | .hp => .hp_rate
  | .atk => .atk_rate
  | .defSrc => .def_rate

/-- The stat key whose flat-weight the damage source fixes. -/
def numKeyOf : DmgSource → StatKey
  | .hp => .hp_num
  | .atk => .atk_num
  | .defSrc => .def_num

/-- The flat-weight constant per damage source (atk→0.1, def→0.1,
hp→0.00676). -/
def numConstOf : DmgSource → ℚ
  | .hp => 169/25000
  | .atk => 1/10
  | .defSrc => 1/10

/-- Embeds `Calculator.get_score` of `src/echo/calculate.py`: iterate the
coefficient fields and add `value * weight` for each weight strictly above 0
(every coefficient key exists on the profile, so `hasattr` is always true). -/
def Calculator.get_score (p : EchoProfile) (c : EntryCoef) : ℚ :=
  (allKeys.map (fun k => if 0 < c.get k then p.get k * c.get k else 0)).sum

/-- Embeds `EchoProfile.get_score` of `src/echo/profile.py`: iterate the
coefficient fields and add `getattr(self, key) * value` unconditionally. -/
def EchoProfile.get_score (p : EchoProfile) (c : EntryCoef) : ℚ :=
  (allKeys.map (fun k => p.get k * c.get k)).sum

/-- The spec's scoring formula (§4.2): the plain weighted dot product over the
13 stat keys.  Stated from the spec's words, to be compared with the two
source scoring functions. -/
def specScore (p : EchoProfile) (c : EntryCoef) : ℚ :=
  (allKeys.map (fun k => p.get k * c.get k)).sum

/-- Embeds `EchoProfile.validate` of `src/echo/profile.py`.  The catalogs
(`stat_data`, `echo_data`) are assets outside `src/`, passed as parameters.
`p.level / 5` is ℤ division; the Python `//` floor division agrees with it on
the guarded range `0 ≤ level ≤ 25`. -/
def validate (stats : StatCatalog) (echoNames : List String) (p : EchoProfile) : Bool :=
  if ¬ (0 ≤ p.level ∧ p.level ≤ 25) then false
  else if ¬ (echoNames.contains p.name) then false
  else if ¬ (((allKeys.filter (fun k => p.get k ≠ 0)).length : ℤ) = p.level / 5) then false
  else allKeys.all
    (fun k => p.get k = 0 || (stats k).distribution.any (fun d => d.1 = p.get k))

/-- Embeds `BaseWWTask.get_angle_between` of `src/task/BaseWWTask.py`:
both branches of the first `if` compute `angle - my_angle`, then the result is
shifted by 360 when above 180 or below −180. -/
def get_angle_between (my_angle angle : ℚ) : ℚ :=
  let to_turn := if angle < my_angle then angle - my_angle else -(my_angle - angle)
  if 180 < to_turn then to_turn - 360
  else if to_turn < -180 then to_turn + 360
  else to_turn

/-- Python's `max(...)` over a non-empty numeric list, as a fold from the
first element. -/
def pyListMax : ℚ → List ℚ → ℚ
  | acc, [] => acc
  | acc, x :: xs => pyListMax (max acc x) xs

/-- One insertion step of a descending sort. -/
def insertDesc (x : ℚ) : List ℚ → List ℚ
  | [] => [x]
  | y :: ys => if y < x then x :: y :: ys else y :: insertDesc x ys

/-- Python's `list.sort(reverse=True)` — a descending sort; on plain numbers
any correct descending sort is extensionally the same, an insertion sort is
used here. -/
def sortDesc : List ℚ → List ℚ
  | [] => []
  | x :: xs => insertDesc x (sortDesc xs)

/-- Embeds `Calculator.get_max_possible_score` of `src/echo/calculate.py`:
current score plus the greedy sum of the `remaining` largest
`max value × weight` products over the unused stat keys (keys whose
distribution is empty are skipped, matching `if dist:`). -/
def get_max_possible_score (stats : StatCatalog) (p : EchoProfile)
    (c : EntryCoef) : ℚ :=
  let current := Calculator.get_score p c
  let existing := allKeys.filter (fun k => 0 < p.get k)
  let remaining : ℤ := 5 - existing.length
  if remaining ≤ 0 then current
  else
    let available := (allKeys.filter (fun k => ¬ 0 < p.get k)).filterMap
      (fun k =>
        match (stats k).distribution with
        | [] => none
        | d :: ds => some (pyListMax d.1 (ds.map Prod.fst) * c.get k))
    current + ((sortDesc available).take remaining.toNat).sum

/-- Embeds the normalization denominator of
`AutoEnhanceEchoTask.smart_enhance_run` (`src/task/AutoEnhanceEchoTask.py`
lines 84–85): `get_max_possible_score` of an empty level-0 profile, replaced
by 1.0 only when it is ≤ 0. -/
def smartDenominator (stats : StatCatalog) (c : EntryCoef) : ℚ :=
  let max_potential := get_max_possible_score stats { level := 0 } c
  if max_potential ≤ 0 then 1 else max_potential

/-- Python `defaultdict(float)` accumulation `d[score] += prob` on an
association list: add to the existing binding of the key or append a fresh
one.  Models the score-keyed dicts of `Calculator.prob_above_score`. -/
def addMass : List (ℚ × ℚ) → ℚ → ℚ → List (ℚ × ℚ)
  | [], s, p => [(s, p)]
  | (s', p') :: rest, s, p =>
    if s' = s then (s', p' + p) :: rest else (s', p') :: addMass rest s p

/-- Total probability mass of a score distribution. -/
def totalMass (d : List (ℚ × ℚ)) : ℚ := (d.map Prod.snd).sum

/-- Probability mass on the scores satisfying a predicate (the only way the
source ever reads a score-keyed dict: `sum(p for s, p in d.items() if ...)`).
Keys merged by `addMass` and separate bindings give the same value here. -/
def massOn (pred : ℚ → Bool) (d : List (ℚ × ℚ)) : ℚ :=
  ((d.filter (fun e => pred e.1)).map Prod.snd).sum

/-- Every mass in the distribution is non-negative. -/
def NonnegD (d : List (ℚ × ℚ)) : Prop := ∀ e ∈ d, 0 ≤ e.2

/-- The per-key weighted score distribution `attr_score_dists[key]` of
`Calculator.prob_above_score`: a zero-weight key degenerates to a point mass
at score 0, otherwise each (value, probability) pair adds its probability at
`value * weight`. -/
def attrScoreDist (stats : StatCatalog) (c : EntryCoef) (k : StatKey) :
    List (ℚ × ℚ) :=
  if c.get k = 0 then [(0, 1)]
  else (stats k).distribution.foldl (fun acc d => addMass acc (d.1 * c.get k) d.2) []

/-- The discrete-convolution step of `Calculator.prob_above_score`:
`new_dist[s1 + s2] += p1 * p2` over both distributions, into a fresh dict. -/
def convolve (d1 d2 : List (ℚ × ℚ)) : List (ℚ × ℚ) :=
  d1.foldl
    (fun acc e1 => d2.foldl (fun acc2 e2 => addMass acc2 (e1.1 + e2.1) (e1.2 * e2.2)) acc)
    []

/-- The aggregate weighted-score distribution of one combination: start from
a point mass at 0 and convolve in each key's distribution. -/
def comboDist (stats : StatCatalog) (c : EntryCoef) (combo : List StatKey) :
    List (ℚ × ℚ) :=
  combo.foldl (fun acc k => convolve acc (attrScoreDist stats c k)) [(0, 1)]

/-- The mass at scores `≥ needed_score - 1e-9` (the float-tolerance tail
read of `Calculator.prob_above_score`, line 130). -/
def tailMass (needed : ℚ) (d : List (ℚ × ℚ)) : ℚ :=
  massOn (fun s => needed - 1/1000000000 ≤ s) d

/-- Embeds `Calculator.prob_above_score` of `src/echo/calculate.py`.
`itertools.combinations(pool, k)` enumerates exactly the length-`k`
subsequences of the pool, modelled by `List.sublistsLen` (Python's `set`
iteration order is arbitrary and only membership matters: the result is an
order-independent average over all combinations). -/
def prob_above_score (stats : StatCatalog) (p : EchoProfile) (c : EntryCoef)
    (threshold : ℚ) : ℚ :=
  let current_score := Calculator.get_score p c
  let needed := threshold - current_score
  if needed ≤ 0 then 1
  else
    let existing := allKeys.filter (fun x => 0 < p.get x)
    let k : ℤ := 5 - existing.length
    if k ≤ 0 then (if 0 < needed then 0 else 1)
    else
      let pool := allKeys.filter (fun x => ¬ 0 < p.get x)
      if (pool.length : ℤ) < k then 0
      else
        let total := ((pool.sublistsLen k.toNat).map
          (fun combo => tailMass needed (comboDist stats c combo))).sum
        total / (Nat.choose pool.length k.toNat : ℚ)

/-- Embeds `Calculator.get_expected_score` of `src/echo/calculate.py`:
current score plus `k` times the pool-wide average of
`average value × weight` (zero-weight keys are skipped by `continue`,
contributing 0). -/
def Calculator.get_expected_score (stats : StatCatalog) (p : EchoProfile)
    (c : EntryCoef) : ℚ :=
  let current_score := Calculator.get_score p c
  let k : ℤ := 5 - (allKeys.filter (fun x => 0 < p.get x)).length
  if k ≤ 0 then current_score
  else
    let pool := allKeys.filter (fun x => ¬ 0 < p.get x)
    let pool_expected_sum := (pool.map (fun x =>
      if c.get x = 0 then 0
      else ((stats x).distribution.map (fun d => d.1 * d.2)).sum * c.get x)).sum
    current_score + pool_expected_sum / pool.length * k

/-- Embeds `EchoProfile.get_expected_score` of `src/echo/profile.py`: on a
copy, every still-zero field is set to its distribution-weighted average,
then scaled by `remain_slots / len(possible_entries)` (`//` floor division
for `remain_slots`, hence `Int.fdiv`), and the copy is scored with the
profile's own unfiltered `get_score`.  (When no field is zero the Python
would divide by zero; ℚ division returns 0 there, a state unreachable under
the slot invariant.) -/
def EchoProfile.get_expected_score (stats : StatCatalog) (p : EchoProfile)
    (c : EntryCoef) : ℚ :=
  let remain_slots : ℤ := Int.fdiv (25 - p.level) 5
  let possible_entries := allKeys.filter (fun x => p.get x = 0)
  let tmp : StatKey → ℚ := fun x =>
    if p.get x = 0 then
      ((stats x).distribution.map (fun d => d.1 * d.2)).sum * (remain_slots : ℚ) /
        (possible_entries.length : ℚ)
    else p.get x
  (allKeys.map (fun x => tmp x * c.get x)).sum

/-- Numeric value of a decimal digit character. -/
def digitVal (c : Char) : ℕ := c.toNat - '0'.toNat

/-- The natural number denoted by a digit string. -/
def natOfDigits (l : List Char) : ℕ := l.foldl (fun a c => 10 * a + digitVal c) 0

/-- The `\.?\d?` tail of the pattern `\d+\.?\d?` used by
`EchoProfile._extract_number`: after the integer digits, an optional dot and
at most one further digit (the regex is greedy, so the dot and digit are
taken whenever present). -/
def dotPart : List Char → List Char
  | [] => []
  | e :: r2 =>
    if e = '.' then
      '.' :: (match r2 with
        | [] => []
        | d :: _ => if d.isDigit then [d] else [])
    else []

/-- The `\.?\d*` tail of the permissive pattern `\d+\.?\d*` used by
`EchoVision._parse_stat_text` in `src/echo/vision.py`: after the integer
digits, an optional dot and every following digit. -/
def dotPartPermissive : List Char → List Char
  | [] => []
  | e :: r2 => if e = '.' then '.' :: r2.takeWhile Char.isDigit else []

/-- The first match of `re.findall(r"\d+\.?\d?", line)`: scan to the first
digit, take the maximal digit run, then `dotPart`. -/
def numToken : List Char → Option (List Char)
  | [] => none
  | c :: rest =>
    if c.isDigit then
      some ((c :: rest).takeWhile Char.isDigit ++
        dotPart ((c :: rest).dropWhile Char.isDigit))
    else numToken rest

/-- The first match of the permissive `re.search(r"(\d+\.?\d*)", text)` of
`src/echo/vision.py`. -/
def numTokenPermissive : List Char → Option (List Char)
  | [] => none
  | c :: rest =>
    if c.isDigit then
      some ((c :: rest).takeWhile Char.isDigit ++
        dotPartPermissive ((c :: rest).dropWhile Char.isDigit))
    else numTokenPermissive rest

/-- Truncation of a numeric token to at most one digit after the dot. -/
def truncTok : List Char → List Char
  | [] => []
  | c :: rest => if c = '.' then '.' :: rest.take 1 else c :: truncTok rest

/-- Python `float()` of a numeric token `digits[.digits]`, as an exact
rational. -/
def ratOfToken (t : List Char) : ℚ :=
  let intPart := t.takeWhile Char.isDigit
  let fracPart :=
    match t.dropWhile Char.isDigit with
    | _ :: fs => fs
    | [] => []
  (natOfDigits intPart : ℚ) + (natOfDigits fracPart : ℚ) / (10 : ℚ) ^ fracPart.length

/-- Embeds `EchoProfile._extract_number` of `src/echo/profile.py`:
`float()` of the first `\d+\.?\d?` match, or None. -/
def extract_number (line : List Char) : Option ℚ := (numToken line).map ratOfToken

/-- Embeds `EchoProfile._extract_entry` of `src/echo/profile.py`: the longest
catalog display name occurring as a substring of the line whose
flat/percentage kind agrees with the presence of a "%" in the line. -/
def extract_entry (stats : StatCatalog) (line : List Char) : Option StatKey :=
  (allKeys.foldl
    (fun (best : String × Option StatKey) k =>
      if charsContains line (stats k).dispName.data
          ∧ charsContains line ['%'] = (stats k).isPercentage
          ∧ best.1.length < (stats k).dispName.length
      then ((stats k).dispName, some k)
      else best)
    ("", none)).2

/-- Python's built-in `round()`: round half to even. -/
def pyRound (q : ℚ) : ℤ :=
  let f := ⌊q⌋
  let r := q - (f : ℚ)
  if r < 1/2 then f
  else if 1/2 < r then f + 1
  else if f % 2 = 0 then f else f + 1

/-- One atom of the compiled name-matching pattern of
`EchoProfile.from_image`: a literal character, the `.` wildcard substituted
for a rare glyph, or the `.?` optional wildcard substituted for `·`. -/
inductive PatAtom
  | lit (c : Char)
  | anyChar
  | optAny
  deriving DecidableEq, Repr

/-- The rare/uncommon glyphs replaced by the `.` wildcard
(`src/echo/profile.py` line 214). -/
def rareChars : List Char :=
  ['魇', '螯', '獠', '鬃', '翎', '鸷', '鹭', '傀', '哨', '蜥',
   '磐', '铎', '镰', '簇', '湮', '釉', '蛰', '鳄', '飓', '芙']

/-- Compile a catalog echo name into its wildcard pattern. -/
def namePattern (name : String) : List PatAtom :=
  name.data.map (fun c =>
    if rareChars.contains c then .anyChar
    else if c = '·' then .optAny
    else .lit c)

/-- Match a wildcard pattern against a prefix of the text (a Boolean
backtracking matcher; for a yes/no answer it agrees with the regex
engine). -/
def patMatchAt : List PatAtom → List Char → Bool
  | [], _ => true
  | .lit c :: ps, x :: xs => c == x && patMatchAt ps xs
  | .lit _ :: _, [] => false
  | .anyChar :: ps, _ :: xs => patMatchAt ps xs
  | .anyChar :: _, [] => false
  | .optAny :: ps, [] => patMatchAt ps []
  | .optAny :: ps, x :: xs => patMatchAt ps (x :: xs) || patMatchAt ps xs

/-- `re.search`: the pattern matches at some position of the line. -/
def patSearch : List PatAtom → List Char → Bool
  | ps, l =>
    patMatchAt ps l ||
      match l with
      | [] => false
      | _ :: rest => patSearch ps rest

/-- The name-recognition loop of `EchoProfile.from_image`: the longest
catalog name whose wildcard pattern matches somewhere in the line (starting
from the empty current best, as `matched_longest_name = ""`). -/
def bestEchoName (echoNames : List String) (line : List Char) : String :=
  echoNames.foldl
    (fun best name =>
      if patSearch (namePattern name) line ∧ best.length < name.length
      then name else best)
    ""

/-- Python `str.strip()` on a character list. -/
def stripChars (l : List Char) : List Char :=
  ((l.dropWhile Char.isWhitespace).reverse.dropWhile Char.isWhitespace).reverse

/-- The loop state of `EchoProfile.from_image`: the profile being filled, the
`lines_to_skip` counter, and whether the skill-section marker stopped the
loop. -/
structure ParseState where
  profile : EchoProfile
  linesToSkip : ℕ
  stopped : Bool

/-- One iteration of the `for line in text.split("\n")` loop of
`EchoProfile.from_image` (`src/echo/profile.py` lines 194–241), in the
source's branch order: skill-section marker, level line (a "+"), name
recognition (only while name and level are both unset), boilerplate skip,
and finally stat-entry extraction where a falsy (0.0) extracted number is
not assigned. -/
def fromImageLine (stats : StatCatalog) (echoNames : List String)
    (s : ParseState) (rawLine : String) : ParseState :=
  if s.stopped then s
  else
    let line := stripChars rawLine.data
    if charsContains line "声骸技能".data then { s with stopped := true }
    else if charsContains line ['+'] then
      match extract_number line with
      | some lv =>
        { s with profile := { s.profile with level := pyRound lv }, linesToSkip := 2 }
      | none => s
    else if s.profile.name = "" ∧ s.profile.level = 0 then
      { s with profile := { s.profile with name := bestEchoName echoNames line } }
    else if 0 < s.linesToSkip then { s with linesToSkip := s.linesToSkip - 1 }
    else
      match extract_entry stats line with
      | some key =>
        match extract_number line with
        | some n => if n = 0 then s else { s with profile := s.profile.set key n }
        | none => s
      | none => s

/-- `EchoProfile.from_image` run over a given sequence of OCR text lines. -/
def from_image_lines (stats : StatCatalog) (echoNames : List String)
    (p : EchoProfile) (lines : List String) : EchoProfile :=
  (lines.foldl (fromImageLine stats echoNames) ⟨p, 0, false⟩).profile

/-- Embeds `EchoProfile.from_image` as it stands in the source: the OCR hook
is a stub (`text = ""`), and `"".split("\n")` is the single empty line. -/
def from_image (stats : StatCatalog) (echoNames : List String)
    (p : EchoProfile) : EchoProfile :=
  from_image_lines stats echoNames p [""]

/-- Embeds `EchoProfile.upgrade` of `src/echo/profile.py`.  When no catalog
entry name matches the given line the source executes `logger.warning(...)`,
but the module-level `logger` import is commented out (lines 16–18), so that
branch raises `NameError` — modelled as the `Except.error` case.  Otherwise a
copy is made, the level set, the parsed entry applied (skipped when the
extracted number is falsy, i.e. 0.0), and the copy returned only if it
validates. -/
def upgrade (stats : StatCatalog) (echoNames : List String) (p : EchoProfile)
    (level : ℤ) (new_entry : String) : Except String (Option EchoProfile) :=
  match extract_entry stats new_entry.data with
  | none => .error "NameError: name logger is not defined"
  | some key =>
    let tmp := { p with level := level }
    let tmp2 :=
      match extract_number new_entry.data with
      | some n => if n = 0 then tmp else tmp.set key n
      | none => tmp
    .ok (if validate stats echoNames tmp2 then some tmp2 else none)

/-- Modelled from the spec: a concrete stat catalog instance.  The real
`assets/config/entry_stats.yml` is not under `src/`; spec §6 fixes the schema
(13 keys, display name, flat/percentage kind, distribution summing to 1) and
§8.3 lists `cri_rate` values 6.3, 6.9, 7.5.  This instance satisfies the
catalog invariants and is used to evaluate the embedded code concretely. -/
def exampleStats : StatCatalog := fun k =>
  match k with
  | .atk_rate => ⟨"攻击", true, [(63/10, 1/2), (79/10, 1/2)]⟩
  | .atk_num => ⟨"攻击", false, [(40, 1/2), (50, 1/2)]⟩
  | .def_rate => ⟨"防御", true, [(81/10, 1)]⟩
  | .def_num => ⟨"防御", false, [(50, 1)]⟩
  | .hp_rate => ⟨"生命", true, [(94/10, 1)]⟩
  | .hp_num => ⟨"生命", false, [(430, 1)]⟩
  | .cri_rate => ⟨"暴击", true, [(63/10, 1/2), (69/10, 3/10), (75/10, 1/5)]⟩
  | .cri_dmg => ⟨"暴击伤害", true, [(126/10, 1/2), (138/10, 1/2)]⟩
  | .normal_dmg => ⟨"普攻伤害加成", true, [(79/10, 1)]⟩
  | .charged_atk => ⟨"重击伤害加成", true, [(79/10, 1)]⟩
  | .resonance_skill => ⟨"共鸣技能伤害加成", true, [(79/10, 1)]⟩
  | .resonance_burst => ⟨"共鸣解放伤害加成", true, [(79/10, 1)]⟩
  | .resonance_eff => ⟨"共鸣效率", true, [(84/10, 1)]⟩

/-- Modelled from the spec: a concrete echo-name catalog (membership set of
`echo.json`, which is not under `src/`). -/
def exampleEchoNames : List String := ["鸣钟之龟", "无常凶鹭", "飞廉之猩"]

/-- A profile used for concrete evaluations: the `cri_rate = 6.3` example of
spec §8.1. -/
def exampleProfileCri : EchoProfile := { level := 5, name := "鸣钟之龟", cri_rate := 63/10 }

/-- A coefficient with only `cri_rate` weighted (weight 2), spec §8.1. -/
def exampleCoefCri : EntryCoef := { cri_rate := 2 }

/-- A level-25 profile with all 5 sub-stat slots filled by integer-valued
stats, used to exercise the filled-slots branch. -/
def fullIntProfile : EchoProfile :=
  { level := 25, atk_num := 40, def_num := 50, hp_num := 430, atk_rate := 7,
    cri_rate := 8 }

/-- A level-5 profile whose single filled slot has an integer value, used as
a concrete instance of the slot-count invariant. -/
def profile5Int : EchoProfile := { level := 5, cri_rate := 8 }

/-- Modelled from the spec: a concrete coefficient catalog instance.  The real
`assets/config/entry_coef.yml` is not under `src/`; spec §6 fixes its schema:
the key "Default" plus character names, each with a damage source in
{hp, atk, def} and a sparse non-negative weight mapping over the 13 keys.
"Tiny" is a spec-permitted entry whose sparse mapping overrides both
atk-derived weights with small positive values. -/
def exampleCoefData : CoefData :=
  [("Default", ⟨.atk, []⟩),
   ("Cartethyia", ⟨.defSrc, [(.cri_rate, 3/4), (.cri_dmg, 3/4)]⟩),
   ("Tiny", ⟨.atk, [(.atk_rate, 1/100), (.atk_num, 1/1000)]⟩)]

/-- The coefficient profile that `EntryCoef("Tiny")` produces under
`exampleCoefData`. -/
def tinyCoef : EntryCoef := { atk_rate := 1/100, atk_num := 1/1000 }

/-- The weight-filtered `Calculator.get_score` equals the plain dot product
whenever the weights are non-negative (the spec's coefficient invariant):
dropped terms have weight exactly 0. -/
theorem calculator_score_eq_dot (p : EchoProfile) (c : EntryCoef)
    (hc : ∀ k ∈ allKeys, 0 ≤ c.get k) :
    Calculator.get_score p c = specScore p c := by
  unfold Calculator.get_score specScore
  congr 1
  refine List.map_congr_left (fun k hk => ?_)
  by_cases h : 0 < c.get k
  · simp [h]
  · have h0 : c.get k = 0 := le_antisymm (not_lt.mp h) (hc k hk)
    simp [h, h0]

/-- C1: for every profile and every coefficient profile with the spec's
non-negative weights, both `Calculator.get_score` and `EchoProfile.get_score`
equal the weighted dot product over the 13 stat keys and nothing else
contributes. -/
theorem c1_score_is_dot_product (p : EchoProfile) (c : EntryCoef)
    (hc : ∀ k ∈ allKeys, 0 ≤ c.get k) :
    Calculator.get_score p c = specScore p c ∧
      EchoProfile.get_score p c = specScore p c :=
  ⟨calculator_score_eq_dot p c hc, rfl⟩

/-- Witness for C1: the spec §8.1 example, a coefficient with only `cri_rate`
weight 2.0 and a profile with `cri_rate = 6.3`, everything else 0, scores
exactly 12.6 under both scoring operations. -/
theorem c1_score_witness :
    Calculator.get_score exampleProfileCri exampleCoefCri = 126 / 10 ∧
      EchoProfile.get_score exampleProfileCri exampleCoefCri = 126 / 10 := by
  have h := c1_score_is_dot_product exampleProfileCri exampleCoefCri (by decide)
  refine ⟨h.1.trans ?_, h.2.trans ?_⟩ <;>
    norm_num [specScore, allKeys, EchoProfile.get, EntryCoef.get,
      exampleProfileCri, exampleCoefCri]

/-- Counterexample for C3: `validate` only checks `0 ≤ level ≤ 25`, not
membership in {0,5,10,15,20,25}; a level-7 profile with a catalog name and
exactly `7 // 5 = 1` valid non-zero field validates. -/
theorem c3_counterexample :
    validate exampleStats exampleEchoNames
      { level := 7, name := "鸣钟之龟", cri_rate := 63/10 } = true := by
  norm_num [validate, allKeys, EchoProfile.get, exampleStats, exampleEchoNames,
    List.filter, List.all]

/-- C3 amended: `validate` rejects every profile whose level is outside the
interval [0, 25]; levels inside the interval that are not multiples of 5 can
still validate (see the counterexample). -/
theorem c3_level_range (stats : StatCatalog) (echoNames : List String)
    (p : EchoProfile) (h : p.level < 0 ∨ 25 < p.level) :
    validate stats echoNames p = false := by
  unfold validate
  have : ¬ (0 ≤ p.level ∧ p.level ≤ 25) := by omega
  simp [this]

/-- Witness for C3's amended theorem: a level-26 profile never validates. -/
theorem c3_level_range_witness :
    validate exampleStats exampleEchoNames { level := 26 } = false :=
  c3_level_range exampleStats exampleEchoNames { level := 26 } (by decide)

/-- Counterexample for C9: at the opposite headings 180 (current) and 0
(target), both in [0, 360), the code returns −180, so the result is not
normalized into the half-open interval (−180, 180]. -/
theorem c9_counterexample :
    get_angle_between 180 0 = -180 ∧ ¬ (-180 < get_angle_between 180 0) := by
  have h : get_angle_between 180 0 = -180 := by
    norm_num [get_angle_between]
  exact ⟨h, by rw [h]; exact lt_irrefl _⟩

/-- C9 amended: for headings in [0, 360) the signed turn is normalized into
the closed interval [−180, 180] (with −180 reachable, e.g. current 180 and
target 0), and it is congruent to target − current modulo 360. -/
theorem c9_angle_range (a t : ℚ) (h1 : 0 ≤ a) (h2 : a < 360)
    (h3 : 0 ≤ t) (h4 : t < 360) :
    -180 ≤ get_angle_between a t ∧ get_angle_between a t ≤ 180 ∧
      (get_angle_between a t = t - a ∨ get_angle_between a t = t - a - 360 ∨
        get_angle_between a t = t - a + 360) := by
  unfold get_angle_between
  dsimp only
  split_ifs with hb h5 h6 h7 h8 <;>
    refine ⟨by linarith, by linarith, ?_⟩
  · right; left; ring
  · right; right; ring
  · left; ring
  · right; left; ring
  · right; right; ring
  · left; ring

/-- Witness for C9's amended theorem at current 350, target 10: the turn is
+20, inside [−180, 180] and congruent to 10 − 350 modulo 360. -/
theorem c9_angle_range_witness :
    -180 ≤ get_angle_between 350 10 ∧ get_angle_between 350 10 ≤ 180 ∧
      (get_angle_between 350 10 = 10 - 350 ∨
        get_angle_between 350 10 = 10 - 350 - 360 ∨
        get_angle_between 350 10 = 10 - 350 + 360) :=
  c9_angle_range 350 10 (by norm_num) (by norm_num) (by norm_num) (by norm_num)

/-- Setting then reading the same coefficient field returns the value. -/
theorem EntryCoef.get_set_self (c : EntryCoef) (k : StatKey) (v : ℚ) :
    (c.set k v).get k = v := by
  cases k <;> rfl

/-- Setting one coefficient field leaves the other fields unchanged. -/
theorem EntryCoef.get_set_ne (c : EntryCoef) (k k' : StatKey) (v : ℚ)
    (h : k' ≠ k) : (c.set k v).get k' = c.get k' := by
  cases k <;> cases k' <;> first
    | rfl
    | exact absurd rfl h

/-- Applying a coefficient mapping that never binds key `k` leaves the
weight of `k` unchanged. -/
theorem applyCoefList_get_of_not_mem (l : List (StatKey × ℚ)) (c : EntryCoef)
    (k : StatKey) (h : ∀ kv ∈ l, kv.1 ≠ k) :
    (applyCoefList c l).get k = c.get k := by
  induction l generalizing c with
  | nil => rfl
  | cons kv rest ih =>
    have hne : k ≠ kv.1 := fun he => (h kv (by simp)) he.symm
    have := ih (c.set kv.1 kv.2) (fun e he => h e (by simp [he]))
    simpa [applyCoefList, EntryCoef.get_set_ne _ _ _ _ hne] using this

/-- C6 amended: constructing a coefficient profile fails exactly for names
absent from the coefficient catalog; for present names construction succeeds,
and the matched rate-weight is 1 and the matched flat-weight the source
constant (atk→0.1, def→0.1, hp→0.00676) whenever the entry's own sparse
mapping does not rebind those two derived keys — `set_char` applies the
mapping after the derived assignments, so a mapping that rebinds them
overrides them (see the counterexample). -/
theorem c6_coef_construction (cd : CoefData) (name : String)
    (defEntry : CoefEntry) (hdef : lookupCoef cd "Default" = some defEntry) :
    ((∃ c, mkEntryCoef cd name = .ok c) ↔ (lookupCoef cd name).isSome) ∧
      (∀ entry, lookupCoef cd name = some entry →
        (∀ kv ∈ entry.coef,
            kv.1 ≠ rateKeyOf entry.dmg_source ∧ kv.1 ≠ numKeyOf entry.dmg_source) →
        ∃ c, mkEntryCoef cd name = .ok c ∧
          c.get (rateKeyOf entry.dmg_source) = 1 ∧
          c.get (numKeyOf entry.dmg_source) = numConstOf entry.dmg_source) := by
  unfold mkEntryCoef
  rw [hdef]
  constructor
  · unfold EntryCoef.set_char
    cases hfind : lookupCoef cd name with
    | none => simp [hfind]
    | some entry => simp [hfind]
  · intro entry hentry hkeys
    unfold EntryCoef.set_char
    rw [hentry]
    refine ⟨_, rfl, ?_, ?_⟩ <;>
      rw [applyCoefList_get_of_not_mem _ _ _
        (fun kv hkv => ?_)]
    · cases entry.dmg_source <;> rfl
    · exact (hkeys kv hkv).1
    · cases entry.dmg_source <;> rfl
    · exact (hkeys kv hkv).2

/-- Witness for C6: under the modelled catalog, "Cartethyia" (damage source
def) is present, so construction succeeds with `def_rate = 1` and
`def_num = 0.1`; and it succeeds precisely because the name is present. -/
theorem c6_coef_construction_witness :
    ((∃ c, mkEntryCoef exampleCoefData "Cartethyia" = .ok c) ↔
        (lookupCoef exampleCoefData "Cartethyia").isSome) ∧
      (∃ c, mkEntryCoef exampleCoefData "Cartethyia" = .ok c ∧
        c.get (rateKeyOf .defSrc) = 1 ∧
        c.get (numKeyOf .defSrc) = numConstOf .defSrc) := by
  have h := c6_coef_construction exampleCoefData "Cartethyia" ⟨.atk, []⟩ (by rfl)
  refine ⟨h.1, ?_⟩
  have h2 := h.2 ⟨.defSrc, [(.cri_rate, 3/4), (.cri_dmg, 3/4)]⟩ (by rfl)
    (by intro kv hkv; fin_cases hkv <;> exact ⟨by decide, by decide⟩)
  exact h2

/-- Counterexample for C6: the claim's "sets the damage-source-matched
rate-weight to 1" does not hold for every catalog-present name.  The
schema-permitted entry "Tiny" (damage source atk, sparse mapping rebinding
`atk_rate` and `atk_num`) constructs successfully, yet its matched
rate-weight is 1/100, not 1, and its matched flat-weight is 1/1000, not the
atk constant 0.1: `set_char` applies the sparse mapping after the derived
assignments. -/
theorem c6_counterexample :
    mkEntryCoef exampleCoefData "Tiny" = .ok tinyCoef ∧
      tinyCoef.get (rateKeyOf .atk) = 1/100 ∧
      tinyCoef.get (numKeyOf .atk) = 1/1000 ∧
      (1/100 : ℚ) ≠ 1 ∧ (1/1000 : ℚ) ≠ numConstOf .atk := by
  refine ⟨rfl, rfl, rfl, by norm_num, by norm_num [numConstOf]⟩

/-- Counterexample for C5: the smart-loop denominator is only replaced by 1.0
when it is ≤ 0; a catalog-constructed coefficient (entry "Tiny" of the
modelled catalog, damage source atk with both derived weights overridden by
its sparse mapping) yields a denominator of 0.129, strictly below 1.0. -/
theorem c5_counterexample :
    mkEntryCoef exampleCoefData "Tiny" = .ok tinyCoef ∧
      smartDenominator exampleStats tinyCoef = 129/1000 ∧
      (129/1000 : ℚ) < 1 := by
  refine ⟨rfl, ?_, by norm_num⟩
  · norm_num [smartDenominator, get_max_possible_score, Calculator.get_score,
      allKeys, EchoProfile.get, EntryCoef.get, tinyCoef, exampleStats,
      List.filter, List.filterMap, pyListMax, sortDesc, insertDesc, max_def,
      List.take]

/-- C2: `prob_above_score` returns exactly 1 whenever the threshold is at
most the current score, and exactly 0 whenever all 5 sub-stat slots are
filled (5 non-zero stat fields, fields being non-negative as the data model
prescribes) and the threshold exceeds the current score. -/
theorem c2_prob_boundary (stats : StatCatalog) (p : EchoProfile) (c : EntryCoef)
    (t : ℚ) :
    (t ≤ Calculator.get_score p c → prob_above_score stats p c t = 1) ∧
      ((∀ k ∈ allKeys, 0 ≤ p.get k) →
        (allKeys.filter (fun k => p.get k ≠ 0)).length = 5 →
        Calculator.get_score p c < t →
        prob_above_score stats p c t = 0) := by
  constructor
  · intro h
    unfold prob_above_score
    dsimp only
    rw [if_pos (by linarith)]
  · intro hnn hfull hlt
    have hfeq : allKeys.filter (fun x => 0 < p.get x) =
        allKeys.filter (fun x => p.get x ≠ 0) := by
      refine List.filter_congr (fun x hx => ?_)
      have hle := hnn x hx
      by_cases hz : p.get x = 0
      · simp [hz]
      · simp [hz, lt_of_le_of_ne hle (Ne.symm hz)]
    unfold prob_above_score
    dsimp only
    rw [if_neg (by linarith), hfeq, hfull]
    norm_num
    linarith

/-- Witness for C2: with the `cri_rate`-only coefficient, a threshold of 5 is
below the 12.6 score of the one-slot profile, so the probability is exactly
1; and the full profile (5 slots) with threshold 100 above its score 16
gives exactly 0. -/
theorem c2_prob_boundary_witness :
    prob_above_score exampleStats exampleProfileCri exampleCoefCri 5 = 1 ∧
      prob_above_score exampleStats fullIntProfile exampleCoefCri 100 = 0 := by
  constructor
  · exact (c2_prob_boundary exampleStats exampleProfileCri exampleCoefCri 5).1
      (by norm_num [Calculator.get_score, allKeys, EchoProfile.get, EntryCoef.get,
        exampleProfileCri, exampleCoefCri])
  · exact (c2_prob_boundary exampleStats fullIntProfile exampleCoefCri 100).2
      (by intro k hk; fin_cases hk <;>
        norm_num [EchoProfile.get, fullIntProfile])
      (by norm_num [allKeys, EchoProfile.get, fullIntProfile, List.filter])
      (by norm_num [Calculator.get_score, allKeys, EchoProfile.get, EntryCoef.get,
        fullIntProfile, exampleCoefCri])

/-- C7: the claim is right about the intent (`upgrade` should return a valid
copy or no value, never raising), but the code is wrong: when the entry text
matches no catalog stat display name, line 249 of `src/echo/profile.py`
executes `logger.warning(...)` although the module-level `logger` import is
commented out, raising `NameError`.  Evaluated here at the failing input
`new_entry = ""`. -/
theorem c7_upgrade_raises :
    upgrade exampleStats exampleEchoNames {} 5 "" =
      .error "NameError: name logger is not defined" := rfl

/-- Truncation walks unchanged through a leading run of digits. -/
theorem truncTok_digits_append (ds r : List Char) (h : ∀ x ∈ ds, x.isDigit) :
    truncTok (ds ++ r) = ds ++ truncTok r := by
  induction ds with
  | nil => rfl
  | cons c cs ih =>
    have hc : c.isDigit := h c (by simp)
    have hne : ¬ (c = '.') := by
      intro he
      rw [he] at hc
      exact absurd hc (by decide)
    simp [truncTok, hne, ih (fun x hx => h x (by simp [hx]))]

/-- The one-decimal fractional tail is the truncation of the permissive
fractional tail. -/
theorem truncTok_dotPartPermissive (l : List Char) :
    truncTok (dotPartPermissive l) = dotPart l := by
  cases l with
  | nil => rfl
  | cons e r2 =>
    by_cases he : e = '.'
    · subst he
      cases r2 with
      | nil => rfl
      | cons d r3 =>
        by_cases hd : d.isDigit
        · simp [dotPartPermissive, dotPart, truncTok, List.takeWhile_cons, hd]
        · simp [dotPartPermissive, dotPart, truncTok, List.takeWhile_cons, hd]
    · simp [dotPartPermissive, dotPart, he, truncTok]

/-- The `\d+\.?\d?` token is the `\d+\.?\d*` token truncated to at most one
digit after the dot. -/
theorem c8_token_relation (l : List Char) :
    numToken l = (numTokenPermissive l).map truncTok := by
  induction l with
  | nil => rfl
  | cons c rest ih =>
    by_cases hc : c.isDigit
    · simp only [numToken, numTokenPermissive, if_pos hc, Option.map_some']
      congr 1
      rw [truncTok_digits_append _ _ (fun x hx => List.mem_takeWhile_imp hx),
        truncTok_dotPartPermissive]
    · simpa [numToken, numTokenPermissive, hc] using ih

/-- C8 amended: the value `from_image` assigns to a matched stat field comes
from `_extract_number`, i.e. the first numeric token under the ONE-decimal
pattern `\d+\.?\d?` — equivalently, the permissive `\d+\.?\d*` token (the
pattern actually used by the vision scanner, not here) truncated to at most
one digit after the dot; a two-decimal read such as "6.35" is captured as
6.3. -/
theorem c8_value_truncated (l : List Char) :
    extract_number l = ((numTokenPermissive l).map truncTok).map ratOfToken := by
  rw [extract_number, c8_token_relation]

/-- Counterexample for C8: on the stat line "暴击6.35%" (after a level line
"+5" and its two skipped boilerplate lines), `from_image` assigns
`cri_rate = 6.3`, not the full two-decimal 6.35 the claim's permissive
pattern would capture. -/
theorem c8_counterexample :
    (from_image_lines exampleStats exampleEchoNames {}
        ["+5", "a", "b", "暴击6.35%"]).cri_rate = 63/10 ∧
      (63/10 : ℚ) ≠ 635/100 := by
  have hrt5 : ratOfToken ['5'] = 5 := by
    have h1 : List.takeWhile Char.isDigit ['5'] = ['5'] := by decide
    have h2 : List.dropWhile Char.isDigit ['5'] = ([] : List Char) := by decide
    have h3 : natOfDigits ['5'] = 5 := by decide
    have h0 : natOfDigits [] = 0 := by decide
    simp [ratOfToken, h1, h2, h3, h0]
  have hpr : pyRound 5 = 5 := by
    have hf : ⌊(5 : ℚ)⌋ = 5 := by norm_num
    norm_num [pyRound, hf]
  have t1 : fromImageLine exampleStats exampleEchoNames ⟨{}, 0, false⟩ "+5" =
      ⟨{ level := 5 }, 2, false⟩ := by
    have c1 : charsContains (stripChars "+5".data) "声骸技能".data = false := by decide
    have c2 : charsContains (stripChars "+5".data) ['+'] = true := by decide
    have hnt : numToken (stripChars "+5".data) = some ['5'] := by decide
    simp [fromImageLine, extract_number, c1, c2, hnt, hrt5, hpr]
  have t2 : fromImageLine exampleStats exampleEchoNames ⟨{ level := 5 }, 2, false⟩ "a" =
      ⟨{ level := 5 }, 1, false⟩ := by
    have c1 : charsContains (stripChars "a".data) "声骸技能".data = false := by decide
    have c2 : charsContains (stripChars "a".data) ['+'] = false := by decide
    simp [fromImageLine, c1, c2]
  have t3 : fromImageLine exampleStats exampleEchoNames ⟨{ level := 5 }, 1, false⟩ "b" =
      ⟨{ level := 5 }, 0, false⟩ := by
    have c1 : charsContains (stripChars "b".data) "声骸技能".data = false := by decide
    have c2 : charsContains (stripChars "b".data) ['+'] = false := by decide
    simp [fromImageLine, c1, c2]
  have hrt63 : ratOfToken ['6', '.', '3'] = 63/10 := by
    have h1 : List.takeWhile Char.isDigit ['6', '.', '3'] = ['6'] := by decide
    have h2 : List.dropWhile Char.isDigit ['6', '.', '3'] = ['.', '3'] := by decide
    have h3 : natOfDigits ['6'] = 6 := by decide
    have h4 : natOfDigits ['3'] = 3 := by decide
    simp [ratOfToken, h1, h2, h3, h4]
    norm_num
  have t4 : fromImageLine exampleStats exampleEchoNames ⟨{ level := 5 }, 0, false⟩ "暴击6.35%" =
      ⟨{ level := 5, cri_rate := 63/10 }, 0, false⟩ := by
    have c1 : charsContains (stripChars "暴击6.35%".data) "声骸技能".data = false := by decide
    have c2 : charsContains (stripChars "暴击6.35%".data) ['+'] = false := by decide
    have ce : extract_entry exampleStats (stripChars "暴击6.35%".data) = some .cri_rate := by
      decide
    have hnt : numToken (stripChars "暴击6.35%".data) = some ['6', '.', '3'] := by decide
    have hn0 : ¬ ((63 : ℚ)/10 = 0) := by norm_num
    simp [fromImageLine, extract_number, c1, c2, ce, hnt, hrt63, hn0, EchoProfile.set]
  refine ⟨?_, by norm_num⟩
  simp only [from_image_lines, List.foldl_cons, List.foldl_nil, t1, t2, t3, t4]

/-- C5 amended: the smart-loop denominator equals `get_max_possible_score` of
an empty level-0 profile when that value is positive and 1.0 otherwise; it is
always strictly positive — so the division is indeed never by zero — but it
is not floored to 1.0 and can lie strictly below 1.0 (see the
counterexample). -/
theorem c5_denominator_pos (stats : StatCatalog) (c : EntryCoef) :
    0 < smartDenominator stats c := by
  unfold smartDenominator
  dsimp only
  split_ifs with h
  · norm_num
  · linarith [not_le.mp h]

/-- Splitting a list sum along a decidable predicate on the elements. -/
theorem sum_map_filter_split {α : Type} (l : List α) (pred : α → Prop)
    [DecidablePred pred] (f : α → ℚ) :
    (l.map f).sum =
      ((l.filter (fun x => decide (pred x))).map f).sum +
        ((l.filter (fun x => !decide (pred x))).map f).sum := by
  induction l with
  | nil => simp
  | cons a t ih =>
    by_cases h : pred a
    · simp [h, ih]
      ring
    · simp [h, ih]
      ring

/-- Splitting the sum of an if-then-else map along its condition. -/
theorem sum_map_ite_split {α : Type} (l : List α) (pred : α → Prop)
    [DecidablePred pred] (f g : α → ℚ) :
    (l.map (fun x => if pred x then f x else g x)).sum =
      ((l.filter (fun x => decide (pred x))).map f).sum +
        ((l.filter (fun x => !decide (pred x))).map g).sum := by
  induction l with
  | nil => simp
  | cons a t ih =>
    by_cases h : pred a
    · simp [h, ih]
      ring
    · simp [h, ih]
      ring

/-- Agreement of the two expected-score projections on the main branch
(at least one slot still open): both add the same evenly-spread pool
average to the same current score. -/
theorem expected_scores_agree_main (stats : StatCatalog) (p : EchoProfile)
    (c : EntryCoef)
    (hc : ∀ k ∈ allKeys, 0 ≤ c.get k)
    (hpool : allKeys.filter (fun x => ¬ 0 < p.get x) =
      allKeys.filter (fun x => p.get x = 0))
    (hrem : Int.fdiv (25 - p.level) 5 =
      5 - ((allKeys.filter (fun x => 0 < p.get x)).length : ℤ))
    (hk : 0 < 5 - ((allKeys.filter (fun x => 0 < p.get x)).length : ℤ)) :
    Calculator.get_expected_score stats p c =
      EchoProfile.get_expected_score stats p c := by
  have hscore := calculator_score_eq_dot p c hc
  unfold Calculator.get_expected_score EchoProfile.get_expected_score
  dsimp only
  rw [if_neg (by omega), hrem, hpool, hscore]
  -- abbreviations
  set P0 := allKeys.filter (fun x => p.get x = 0) with hP0
  set K : ℤ := 5 - ((allKeys.filter (fun x => 0 < p.get x)).length : ℤ) with hK
  set A : StatKey → ℚ := fun x => ((stats x).distribution.map (fun d => d.1 * d.2)).sum with hA
  -- the sparse pool sum equals the plain weighted-average sum
  have hS1 : (P0.map (fun x => if c.get x = 0 then 0 else A x * c.get x)).sum =
      (P0.map (fun x => A x * c.get x)).sum := by
    congr 1
    refine List.map_congr_left (fun x hx => ?_)
    by_cases hw : c.get x = 0
    · simp [hw]
    · simp [hw]
  -- split the spec score over zero / non-zero fields
  have hsplit := sum_map_filter_split allKeys (fun x => p.get x = 0)
    (fun x => p.get x * c.get x)
  have hzero : ((allKeys.filter (fun x => p.get x = 0)).map
      (fun x => p.get x * c.get x)).sum = 0 := by
    refine List.sum_eq_zero (fun q hq => ?_)
    obtain ⟨x, hx, rfl⟩ := List.mem_map.mp hq
    have := (List.mem_filter.mp hx).2
    simp only [decide_eq_true_eq] at this
    rw [this, zero_mul]
  -- rewrite the profile-side sum
  have hrhs : (allKeys.map (fun x =>
      (if p.get x = 0 then A x * ((K : ℤ) : ℚ) / (P0.length : ℚ) else p.get x) *
        c.get x)).sum =
      (P0.map (fun x => A x * ((K : ℤ) : ℚ) / (P0.length : ℚ) * c.get x)).sum +
        ((allKeys.filter (fun x => !decide (p.get x = 0))).map
          (fun x => p.get x * c.get x)).sum := by
    rw [show (fun x => (if p.get x = 0 then A x * ((K : ℤ) : ℚ) / (P0.length : ℚ)
          else p.get x) * c.get x) =
        (fun x => if p.get x = 0 then A x * ((K : ℤ) : ℚ) / (P0.length : ℚ) * c.get x
          else p.get x * c.get x) from funext (fun x => by rw [ite_mul])]
    exact sum_map_ite_split allKeys (fun x => p.get x = 0) _ _
  rw [hrhs, hS1]
  unfold specScore
  rw [hsplit, hzero, zero_add]
  -- remaining: the projected terms agree
  have hfactor : (P0.map (fun x => A x * ((K : ℤ) : ℚ) / (P0.length : ℚ) * c.get x)).sum =
      (P0.map (fun x => A x * c.get x)).sum * (((K : ℤ) : ℚ) / (P0.length : ℚ)) := by
    rw [show (fun x => A x * ((K : ℤ) : ℚ) / (P0.length : ℚ) * c.get x) =
        (fun x => A x * c.get x * (((K : ℤ) : ℚ) / (P0.length : ℚ))) from
      funext (fun x => by ring)]
    exact List.sum_map_mul_right _ _ _
  rw [hfactor]
  ring


/-- C4: under the slot-count invariant (level a multiple of 5 in [0, 25],
number of non-zero fields equal to level/5, fields and weights non-negative
as the data model prescribes), `Calculator.get_expected_score` and
`EchoProfile.get_expected_score` return the same value — in exact rational
arithmetic the two independently coded approximations coincide. -/
theorem c4_expected_scores_agree (stats : StatCatalog) (p : EchoProfile)
    (c : EntryCoef)
    (hc : ∀ k ∈ allKeys, 0 ≤ c.get k)
    (hnn : ∀ k ∈ allKeys, 0 ≤ p.get k)
    (hlev : p.level = 0 ∨ p.level = 5 ∨ p.level = 10 ∨ p.level = 15 ∨
      p.level = 20 ∨ p.level = 25)
    (hcount : ((allKeys.filter (fun k => p.get k ≠ 0)).length : ℤ) = p.level / 5) :
    Calculator.get_expected_score stats p c =
      EchoProfile.get_expected_score stats p c := by
  have hfeq : allKeys.filter (fun x => 0 < p.get x) =
      allKeys.filter (fun x => p.get x ≠ 0) := by
    refine List.filter_congr (fun x hx => ?_)
    have hle := hnn x hx
    by_cases hz : p.get x = 0
    · simp [hz]
    · simp [hz, lt_of_le_of_ne hle (Ne.symm hz)]
  have hpool : allKeys.filter (fun x => ¬ 0 < p.get x) =
      allKeys.filter (fun x => p.get x = 0) := by
    refine List.filter_congr (fun x hx => ?_)
    have hle := hnn x hx
    by_cases hz : p.get x = 0
    · simp [hz]
    · simp [hz, lt_of_le_of_ne hle (Ne.symm hz)]
  have hn : ((allKeys.filter (fun x => 0 < p.get x)).length : ℤ) = p.level / 5 := by
    rw [hfeq]
    exact hcount
  by_cases h25 : p.level = 25
  · have hlen : ((allKeys.filter (fun x => 0 < p.get x)).length : ℤ) = 5 := by
      rw [hn, h25]
      decide
    unfold Calculator.get_expected_score EchoProfile.get_expected_score
    dsimp only
    rw [if_pos (by omega), calculator_score_eq_dot p c hc]
    unfold specScore
    congr 1
    refine List.map_congr_left (fun x hx => ?_)
    by_cases hz : p.get x = 0
    · rw [h25, hz]
      rw [show Int.fdiv (25 - (25 : ℤ)) 5 = 0 from by decide]
      norm_num
    · simp [hz]
  · have h5 : p.level = 0 ∨ p.level = 5 ∨ p.level = 10 ∨ p.level = 15 ∨
        p.level = 20 := by tauto
    apply expected_scores_agree_main stats p c hc hpool
    · rcases h5 with h|h|h|h|h <;> rw [h] at hn ⊢
      · rw [show Int.fdiv (25 - (0 : ℤ)) 5 = 5 from by decide]
        omega
      · rw [show Int.fdiv (25 - (5 : ℤ)) 5 = 4 from by decide]
        omega
      · rw [show Int.fdiv (25 - (10 : ℤ)) 5 = 3 from by decide]
        omega
      · rw [show Int.fdiv (25 - (15 : ℤ)) 5 = 2 from by decide]
        omega
      · rw [show Int.fdiv (25 - (20 : ℤ)) 5 = 1 from by decide]
        omega
    · rcases h5 with h|h|h|h|h <;> rw [h] at hn <;> omega

/-- Witness for C4: at a valid level-5 one-slot profile under the
`cri_rate`-only coefficient, the two projections agree. -/
theorem c4_witness :
    Calculator.get_expected_score exampleStats profile5Int exampleCoefCri =
      EchoProfile.get_expected_score exampleStats profile5Int exampleCoefCri :=
  c4_expected_scores_agree exampleStats profile5Int exampleCoefCri
    (by decide) (by decide) (by decide) (by decide)

/-- The empty distribution carries no mass. -/
theorem totalMass_nil : totalMass [] = 0 := rfl

/-- Total mass of a cons. -/
theorem totalMass_cons (a : ℚ × ℚ) (d : List (ℚ × ℚ)) :
    totalMass (a :: d) = a.2 + totalMass d := by
  simp [totalMass]

/-- Filtered mass of a cons. -/
theorem massOn_cons (pred : ℚ → Bool) (a : ℚ × ℚ) (d : List (ℚ × ℚ)) :
    massOn pred (a :: d) = (if pred a.1 then a.2 else 0) + massOn pred d := by
  by_cases h : pred a.1 <;> simp [massOn, List.filter_cons, h]

/-- Key point of the dict model: `defaultdict` accumulation adds exactly the
new mass to every filtered read, whether the key was merged or appended. -/
theorem massOn_addMass (pred : ℚ → Bool) (d : List (ℚ × ℚ)) (s q : ℚ) :
    massOn pred (addMass d s q) = massOn pred d + (if pred s then q else 0) := by
  induction d with
  | nil =>
    by_cases h : pred s <;> simp [addMass, massOn, List.filter, h]
  | cons a rest ih =>
    obtain ⟨s', p'⟩ := a
    by_cases he : s' = s
    · subst he
      rw [show addMass ((s', p') :: rest) s' q = (s', p' + q) :: rest from by
        simp [addMass]]
      rw [massOn_cons, massOn_cons]
      by_cases h : pred s'
      · simp [h]
        ring
      · simp [h]
    · rw [show addMass ((s', p') :: rest) s q = (s', p') :: addMass rest s q from by
        simp [addMass, he]]
      rw [massOn_cons, massOn_cons, ih]
      ring

/-- Total mass is the mass on the trivial predicate. -/
theorem totalMass_eq_massOn (d : List (ℚ × ℚ)) :
    totalMass d = massOn (fun _ => true) d := by
  simp [totalMass, massOn, List.filter_true]

/-- `addMass` grows the total mass by the added probability. -/
theorem totalMass_addMass (d : List (ℚ × ℚ)) (s q : ℚ) :
    totalMass (addMass d s q) = totalMass d + q := by
  rw [totalMass_eq_massOn, totalMass_eq_massOn, massOn_addMass]
  simp

/-- `addMass` preserves non-negativity of all masses. -/
theorem nonneg_addMass {d : List (ℚ × ℚ)} {s q : ℚ}
    (h : NonnegD d) (hq : 0 ≤ q) : NonnegD (addMass d s q) := by
  induction d with
  | nil =>
    intro e he
    simp [addMass] at he
    rw [he]
    exact hq
  | cons a rest ih =>
    obtain ⟨s', p'⟩ := a
    by_cases he : s' = s
    · subst he
      rw [show addMass ((s', p') :: rest) s' q = (s', p' + q) :: rest from by
        simp [addMass]]
      intro e he'
      rcases List.mem_cons.mp he' with h1 | h1
      · rw [h1]
        exact add_nonneg (h (s', p') (by simp)) hq
      · exact h e (by simp [h1])
    · rw [show addMass ((s', p') :: rest) s q = (s', p') :: addMass rest s q from by
        simp [addMass, he]]
      intro e he'
      rcases List.mem_cons.mp he' with h1 | h1
      · rw [h1]
        exact h (s', p') (by simp)
      · exact ih (fun e' he'' => h e' (by simp [he''])) e h1

/-- The inner convolution loop adds `p1` times the second distribution
mass. -/
theorem totalMass_convStep (d2 : List (ℚ × ℚ)) (s1 p1 : ℚ) (acc : List (ℚ × ℚ)) :
    totalMass (d2.foldl (fun acc2 e2 => addMass acc2 (s1 + e2.1) (p1 * e2.2)) acc) =
      totalMass acc + p1 * totalMass d2 := by
  induction d2 generalizing acc with
  | nil => simp [totalMass]
  | cons e l ih =>
    simp only [List.foldl_cons]
    rw [ih, totalMass_addMass, totalMass_cons]
    ring

/-- The inner convolution loop preserves non-negativity. -/
theorem nonneg_convStep {d2 : List (ℚ × ℚ)} {s1 p1 : ℚ} {acc : List (ℚ × ℚ)}
    (hacc : NonnegD acc) (hp1 : 0 ≤ p1) (hd2 : NonnegD d2) :
    NonnegD (d2.foldl (fun acc2 e2 => addMass acc2 (s1 + e2.1) (p1 * e2.2)) acc) := by
  induction d2 generalizing acc with
  | nil => exact hacc
  | cons e l ih =>
    simp only [List.foldl_cons]
    exact ih (nonneg_addMass hacc (mul_nonneg hp1 (hd2 e (by simp))))
      (fun e' he' => hd2 e' (by simp [he']))

/-- Convolution multiplies total masses: the discrete analogue of mass
conservation for the nested-loop convolution. -/
theorem totalMass_convolve (d1 d2 : List (ℚ × ℚ)) :
    totalMass (convolve d1 d2) = totalMass d1 * totalMass d2 := by
  have gen : ∀ acc : List (ℚ × ℚ),
      totalMass (d1.foldl
        (fun acc e1 => d2.foldl
          (fun acc2 e2 => addMass acc2 (e1.1 + e2.1) (e1.2 * e2.2)) acc) acc) =
      totalMass acc + totalMass d1 * totalMass d2 := by
    induction d1 with
    | nil => intro acc; simp [totalMass]
    | cons e l ih =>
      intro acc
      simp only [List.foldl_cons]
      rw [ih, totalMass_convStep, totalMass_cons]
      ring
  simpa [totalMass] using gen []

/-- Convolution of non-negative distributions is non-negative. -/
theorem nonneg_convolve {d1 d2 : List (ℚ × ℚ)}
    (h1 : NonnegD d1) (h2 : NonnegD d2) : NonnegD (convolve d1 d2) := by
  have gen : ∀ d1' : List (ℚ × ℚ), NonnegD d1' → ∀ acc : List (ℚ × ℚ), NonnegD acc →
      NonnegD (d1'.foldl
        (fun acc e1 => d2.foldl
          (fun acc2 e2 => addMass acc2 (e1.1 + e2.1) (e1.2 * e2.2)) acc) acc) := by
    intro d1'
    induction d1' with
    | nil => intro _ acc hacc; exact hacc
    | cons e l ih =>
      intro hd1 acc hacc
      simp only [List.foldl_cons]
      exact ih (fun e' he' => hd1 e' (List.mem_cons_of_mem _ he')) _
        (nonneg_convStep hacc (hd1 e (List.mem_cons_self _ _)) h2)
  exact gen d1 h1 [] (by intro e he; simp at he)

/-- Under the catalog invariant, each per-key weighted score distribution
has total mass 1 (a zero-weight key trivially, otherwise the probability
column itself). -/
theorem totalMass_attrScoreDist (stats : StatCatalog) (c : EntryCoef) (k : StatKey)
    (hsum : ((stats k).distribution.map Prod.snd).sum = 1) :
    totalMass (attrScoreDist stats c k) = 1 := by
  unfold attrScoreDist
  split_ifs with hw
  · simp [totalMass]
  · have gen : ∀ (l : List (ℚ × ℚ)) (acc : List (ℚ × ℚ)),
        totalMass (l.foldl (fun a d => addMass a (d.1 * c.get k) d.2) acc) =
          totalMass acc + (l.map Prod.snd).sum := by
      intro l
      induction l with
      | nil => intro acc; simp
      | cons e t ih =>
        intro acc
        simp only [List.foldl_cons]
        rw [ih, totalMass_addMass]
        simp
        ring
    rw [gen _ [], hsum, totalMass_nil, zero_add]

/-- Per-key score distributions inherit non-negative masses from the
catalog. -/
theorem nonneg_attrScoreDist {stats : StatCatalog} {c : EntryCoef} {k : StatKey}
    (hprob : ∀ d ∈ (stats k).distribution, 0 ≤ d.2) :
    NonnegD (attrScoreDist stats c k) := by
  unfold attrScoreDist
  split_ifs with hw
  · intro e he
    simp at he
    rw [he]
    norm_num
  · have gen : ∀ (l : List (ℚ × ℚ)) (acc : List (ℚ × ℚ)), NonnegD acc →
        (∀ d ∈ l, 0 ≤ d.2) →
        NonnegD (l.foldl (fun a d => addMass a (d.1 * c.get k) d.2) acc) := by
      intro l
      induction l with
      | nil => intro acc hacc _; exact hacc
      | cons e t ih =>
        intro acc hacc hl
        simp only [List.foldl_cons]
        exact ih _ (nonneg_addMass hacc (hl e (by simp)))
          (fun d hd => hl d (by simp [hd]))
    exact gen _ [] (by intro e he; simp at he) hprob

/-- Each combination-level convolved distribution has total mass exactly 1
(spec §8.5's convolution mass conservation, in general form). -/
theorem totalMass_comboDist (stats : StatCatalog) (c : EntryCoef)
    (hsum : ∀ k : StatKey, ((stats k).distribution.map Prod.snd).sum = 1)
    (combo : List StatKey) :
    totalMass (comboDist stats c combo) = 1 := by
  have gen : ∀ acc : List (ℚ × ℚ),
      totalMass (combo.foldl (fun a k => convolve a (attrScoreDist stats c k)) acc) =
        totalMass acc := by
    induction combo with
    | nil => intro acc; rfl
    | cons k ks ih =>
      intro acc
      simp only [List.foldl_cons]
      rw [ih, totalMass_convolve, totalMass_attrScoreDist stats c k (hsum k), mul_one]
  rw [comboDist, gen, totalMass_cons, totalMass_nil]
  norm_num

/-- Combination distributions have non-negative masses. -/
theorem nonneg_comboDist {stats : StatCatalog} {c : EntryCoef}
    (hprob : ∀ k : StatKey, ∀ d ∈ (stats k).distribution, 0 ≤ d.2)
    (combo : List StatKey) :
    NonnegD (comboDist stats c combo) := by
  have gen : ∀ acc : List (ℚ × ℚ), NonnegD acc →
      NonnegD (combo.foldl (fun a k => convolve a (attrScoreDist stats c k)) acc) := by
    induction combo with
    | nil => intro acc hacc; exact hacc
    | cons k ks ih =>
      intro acc hacc
      simp only [List.foldl_cons]
      exact ih _ (nonneg_convolve hacc (nonneg_attrScoreDist (hprob k)))
  refine gen _ ?_
  intro e he
  simp at he
  rw [he]
  norm_num

/-- A filtered read of a non-negative distribution is non-negative. -/
theorem massOn_nonneg (pred : ℚ → Bool) {d : List (ℚ × ℚ)} (h : NonnegD d) :
    0 ≤ massOn pred d := by
  induction d with
  | nil => simp [massOn]
  | cons a rest ih =>
    rw [massOn_cons]
    have ha := h a (by simp)
    have hr := ih (fun e he => h e (by simp [he]))
    by_cases hp : pred a.1 <;> simp [hp] <;> linarith

/-- A filtered read never exceeds the total mass. -/
theorem massOn_le_totalMass (pred : ℚ → Bool) {d : List (ℚ × ℚ)} (h : NonnegD d) :
    massOn pred d ≤ totalMass d := by
  induction d with
  | nil => simp [massOn, totalMass]
  | cons a rest ih =>
    rw [massOn_cons, totalMass_cons]
    have ha := h a (by simp)
    have hr := ih (fun e he => h e (by simp [he]))
    by_cases hp : pred a.1 <;> simp [hp] <;> linarith

/-- A list of values each at most 1 sums to at most its length. -/
theorem list_sum_le_length (l : List ℚ) (h : ∀ x ∈ l, x ≤ 1) :
    l.sum ≤ (l.length : ℚ) := by
  induction l with
  | nil => simp
  | cons a t ih =>
    simp only [List.sum_cons, List.length_cons]
    push_cast
    have := h a (by simp)
    have := ih (fun x hx => h x (by simp [hx]))
    linarith

/-- C10: under the catalog invariant (non-negative probabilities summing to
1 for every stat), `prob_above_score` always lies in [0, 1]: every early
return is 0 or 1, and on the main branch each combination's tail mass lies
in [0, 1] so the average over the C(pool, k) combinations does too. -/
theorem c10_prob_unit_interval (stats : StatCatalog) (p : EchoProfile)
    (c : EntryCoef) (t : ℚ)
    (hcat : ∀ k : StatKey, (∀ d ∈ (stats k).distribution, 0 ≤ d.2) ∧
      ((stats k).distribution.map Prod.snd).sum = 1) :
    0 ≤ prob_above_score stats p c t ∧ prob_above_score stats p c t ≤ 1 := by
  unfold prob_above_score
  dsimp only
  split_ifs with h1 h2 h3 h4
  · norm_num
  · norm_num
  · norm_num
  · norm_num
  · -- main branch: the averaged tail masses
    have hcombo : ∀ combo : List StatKey,
        0 ≤ tailMass (t - Calculator.get_score p c) (comboDist stats c combo) ∧
          tailMass (t - Calculator.get_score p c) (comboDist stats c combo) ≤ 1 := by
      intro combo
      have hnn := @nonneg_comboDist stats c (fun k => (hcat k).1) combo
      refine ⟨massOn_nonneg _ hnn, ?_⟩
      have := massOn_le_totalMass
        (fun s => decide (t - Calculator.get_score p c - 1/1000000000 ≤ s)) hnn
      rw [totalMass_comboDist stats c (fun k => (hcat k).2) combo] at this
      exact this
    set pool := allKeys.filter (fun x => ¬ 0 < p.get x) with hpool
    set kn := ((5 : ℤ) -
      ((allKeys.filter (fun x => 0 < p.get x)).length : ℤ)).toNat with hkn
    have hklen : kn ≤ pool.length := by
      push_neg at h4
      omega
    have hCpos : (0 : ℚ) < (Nat.choose pool.length kn : ℚ) := by
      exact_mod_cast Nat.choose_pos hklen
    constructor
    · apply div_nonneg
      · apply List.sum_nonneg
        intro x hx
        obtain ⟨combo, _, rfl⟩ := List.mem_map.mp hx
        exact (hcombo combo).1
      · exact le_of_lt hCpos
    · rw [div_le_one hCpos]
      have hle := list_sum_le_length
        ((pool.sublistsLen kn).map
          (fun combo => tailMass (t - Calculator.get_score p c) (comboDist stats c combo)))
        (by
          intro x hx
          obtain ⟨combo, _, rfl⟩ := List.mem_map.mp hx
          exact (hcombo combo).2)
      rw [List.length_map, List.length_sublistsLen] at hle
      exact hle

/-- Witness for C10: at the modelled catalog (whose distributions satisfy
the invariant) the probability for the one-slot profile against threshold 50
lies in [0, 1]. -/
theorem c10_witness :
    0 ≤ prob_above_score exampleStats exampleProfileCri exampleCoefCri 50 ∧
      prob_above_score exampleStats exampleProfileCri exampleCoefCri 50 ≤ 1 :=
  c10_prob_unit_interval exampleStats exampleProfileCri exampleCoefCri 50
    (by
      intro k
      cases k <;>
        exact ⟨by intro d hd; fin_cases hd <;> norm_num [exampleStats],
          by norm_num [exampleStats]⟩)
